import Mathlib

/-!
Verification of the labscript experiment-control compiler core
(`labscript.py`) against its natural-language specification.

Times are embedded as exact rationals (`ℚ`).  Python's `round` (banker's
rounding, round-half-to-even) is modelled by `rnd`; `round(x, 10)` by
`round10`; the pseudoclock quantisation `(t/res).round()*res` by
`quantise`.
-/

namespace Labscript

/-- Python / numpy `round` on an exact rational: round half to even. -/
def rnd (x : ℚ) : ℤ :=
  if x - x.floor < 1/2 then x.floor
  else if 1/2 < x - x.floor then x.floor + 1
  else if x.floor % 2 = 0 then x.floor else x.floor + 1

/-- `Rat.floor` agrees with the floor of the archimedean order. -/
theorem intFloor_eq_ratFloor (q : ℚ) : ⌊q⌋ = q.floor := by
  rw [Rat.floor_def, Rat.floor_def']

/-- Python `round(x, 10)`: round to ten decimal places. -/
def round10 (x : ℚ) : ℚ :=
  (rnd (x * 10^10) : ℚ) / 10^10

/-- `Device.quantise_to_pseudoclock` on one time, labscript.py line 525:
`(times/clock_resolution).round()*clock_resolution`. -/
def quantise (res t : ℚ) : ℚ :=
  (rnd (t / res) : ℚ) * res

/-- `rnd` is the identity on integers. -/
theorem rnd_intCast (k : ℤ) : rnd (k : ℚ) = k := by
  have h : ((k : ℚ)).floor = k := by
    rw [← intFloor_eq_ratFloor]; exact Int.floor_intCast k
  unfold rnd
  norm_num [h]

/-- Quantisation is idempotent (claim C8's invariant 7). -/
theorem quantise_idem (res t : ℚ) : quantise res (quantise res t) = quantise res t := by
  by_cases hres : res = 0
  · simp [quantise, hres]
  · unfold quantise
    rw [mul_div_assoc, div_self hres, mul_one, rnd_intCast]

/-- The container of times handed to `quantise_to_pseudoclock`: a numpy
array, a list, a set, or a bare number (labscript.py lines 515-523). -/
inductive PyTimes where
  | flt : ℚ → PyTimes
  | lst : List ℚ → PyTimes
  | pyset : Finset ℚ → PyTimes
  | arr : List ℚ → PyTimes
deriving DecidableEq

/-- Constructor tag of a `PyTimes` container. -/
def shapeOf : PyTimes → ℕ
  | .flt _ => 0
  | .lst _ => 1
  | .pyset _ => 2
  | .arr _ => 3

/-- `Device.quantise_to_pseudoclock` (labscript.py lines 505-530): a
non-array argument is wrapped with `array()`, quantised elementwise at
line 525, and converted back to the original container kind.  A number
becomes a 0-d float array and a list a 1-d array, so both work; a `set`,
however, is wrapped by numpy as a 0-d *object* array, and the division
`times/clock_resolution` at line 525 then raises `TypeError`, so the
call errors on set inputs — modelled as `none`. -/
def quantise_to_pseudoclock (res : ℚ) : PyTimes → Option PyTimes
  | .flt x => some (.flt (quantise res x))
  | .lst xs => some (.lst (xs.map (quantise res)))
  | .pyset _ => none
  | .arr xs => some (.arr (xs.map (quantise res)))

/-- One entry of a pseudoclock's clock program: beginning at `start`, emit
`reps` ticks separated by `step` on each clockline in `enabled` (clocklines
are identified by a numeric index). -/
structure Seg where
  start : ℚ
  reps : ℕ
  step : ℚ
  enabled : List ℕ
deriving DecidableEq

/-- The quantised ramp period, `Pseudoclock.expand_change_times` lines
948-952: `period = 1/maxrate`, `quantised_period = round(period/res)`,
`period = quantised_period*res`. -/
def quantisedPeriod (res raw : ℚ) : ℚ := quantise res (1 / raw)

/-- Number of clock ticks inside one change-time interval,
`Pseudoclock.expand_change_times` lines 960-967:
`n_ticks, remainder = divmod((t_next - t)*maxrate, 1)`, and one extra tick
is admitted iff `remainder` is nonzero and `remainder/maxrate >= 1/limit`. -/
def nTicks (time tNext maxrate limit : ℚ) : ℕ :=
  let x := (tNext - time) * maxrate
  let n := x.floor
  let rem := x - n
  (if rem ≠ 0 ∧ 1 / limit ≤ rem / maxrate then n + 1 else n).toNat

/-- The tick array for a ramping interval,
`Pseudoclock.expand_change_times` lines 968-969:
`linspace(time, time + n_ticks/maxrate, n_ticks, endpoint=False)`, whose
spacing is `1/maxrate = period`. -/
def rampTicks (time period : ℚ) (n : ℕ) : List ℚ :=
  (List.range n).map (fun k : ℕ => time + (k : ℚ) * period)

/-- Segment emission for one ramping interval,
`Pseudoclock.expand_change_times` lines 977-994.  `n` is `n_ticks`,
`period` is `1/maxrate`, and `lastTick` is `ticks[-1]`.  The final
segment enables all enabled clocklines iff `n = 1`, else only the
looping ones. -/
def emitRampSegments (time tNext period : ℚ) (n : ℕ) (enabled looping : List ℕ) :
    List Seg :=
  let lastTick := time + ((n - 1 : ℕ) : ℚ) * period
  (if 1 < n then
    (if 2 < n then
      [⟨time, 1, period, enabled⟩, ⟨time + period, n - 2, period, looping⟩]
     else
      [⟨time, n - 1, period, enabled⟩])
   else [])
  ++ [⟨lastTick, 1, tNext - lastTick, if n = 1 then enabled else looping⟩]

/-- Processing of one change-time interval with an active ramp
(`maxrate > 0` branch of `Pseudoclock.expand_change_times`, lines
947-994): quantise the period, recompute `maxrate = 1/period`, count the
ticks, and emit the segments with step `1/maxrate`. -/
def processInterval (res limit time tNext raw : ℚ) (enabled looping : List ℕ) :
    List Seg :=
  emitRampSegments time tNext (1 / (1 / quantisedPeriod res raw))
    (nTicks time tNext (1 / quantisedPeriod res raw) limit) enabled looping

/-- The single segment for an interval with no ramping,
`Pseudoclock.expand_change_times` line 1001. -/
def simpleSegment (time tNext : ℚ) (enabled : List ℕ) : Seg :=
  ⟨time, 1, tNext - time, enabled⟩

/-- The terminal segment emitted when `stop_time` equals the last change
time, `Pseudoclock.expand_change_times` line 1029: one rep of step
`10/clock_limit` with all clocklines enabled. -/
def terminalSegment (time clock_limit : ℚ) (clocklines : List ℕ) : Seg :=
  ⟨time, 1, 10 / clock_limit, clocklines⟩

/-- `Pseudoclock.collect_change_times` lines 747-779: the union of all
outputs' change times (`[0]` when there are none), with `stop_time`
appended and the parent device's `trigger_times` extended on, quantised
to the pseudoclock's `clock_resolution`. -/
def all_change_times_quantised (res : ℚ) (outputTimes : List ℚ) (stop : ℚ)
    (tts : List ℚ) : List ℚ :=
  ((if outputTimes.isEmpty then [0] else outputTimes) ++ [stop] ++ tts).map
    (quantise res)

/-- Cross-clockline ramp-break insertion, `Pseudoclock.collect_change_times`
lines 783-790: for each ramp `(s, e)` on a clockline, every quantised
change time strictly inside `(s, e)` is appended to that clockline's
change-time list `cts`. -/
def insert_ramp_breaks (act : List ℚ) (ramps : List (ℚ × ℚ)) (cts : List ℚ) :
    List ℚ :=
  ramps.foldl
    (fun acc r => acc ++ act.filter (fun t => decide (r.1 < t ∧ t < r.2))) cts

/-- An output instruction: either a scalar base-unit value, or a ramp
record carrying its initial time, end time and clock rate (the
`{function, initial time, end time, clock rate, ...}` dict of the
source). -/
inductive Instr where
  | scalar (v : ℚ)
  | ramp (initial endT rate : ℚ)
deriving DecidableEq

/-- Errors actually raised by the trigger-time checks of
`Output.do_checks`. -/
inductive CheckErr where
  | rampAtTrigger
  | tooSoonAfterTrigger
deriving DecidableEq

/-- The per-(trigger, instruction) checks of `Output.do_checks` lines
1557-1575.  The first branch raises when a ramp spans the trigger time;
the second when the instruction time lies within
`(trigger, trigger + trigger_delay)` after rounding to 1e-10.  The source
then computes the condition `0 < trigger_time - t < max(self.clock_limit,
compiler.wait_delay)` for an instruction too soon *before* the trigger
and builds an error message for it, but never raises it; accordingly that
branch returns no error here. -/
def trigger_check_one (trigger_delay clock_limit wait_delay T t : ℚ)
    (ins : Instr) : Option CheckErr :=
  if (match ins with
      | .ramp i e _ => decide (i < T) && decide (T < e)
      | .scalar _ => false) then some .rampAtTrigger
  else if round10 T < round10 t ∧ round10 t < round10 (T + trigger_delay) then
    some .tooSoonAfterTrigger
  else
    let _tooSoonBefore :=
      decide (0 < T - t) && decide (T - t < max clock_limit wait_delay)
    none

/-- The trigger-time loop of `Output.do_checks` lines 1556-1575: the first
error produced over all trigger times and all instructions, if any. -/
def do_checks_trigger_scan (trigger_delay clock_limit wait_delay : ℚ)
    (instrs : List (ℚ × Instr)) (tts : List ℚ) : Option CheckErr :=
  tts.findSome? (fun T =>
    instrs.findSome? (fun p =>
      trigger_check_one trigger_delay clock_limit wait_delay T p.1 p.2))

/-- Following the spec's words (§4.6): `do_checks(trigger_times)` fails if
any instruction falls in `[trigger − max(clock_limit_period, wait_delay),
trigger)`, i.e. when `0 < trigger − t < max(1/clock_limit, wait_delay)`
for some trigger time and instruction time.  Stated as a second
definition to compare against the source's `do_checks_trigger_scan`. -/
def spec_pre_trigger_window (clock_limit wait_delay : ℚ)
    (instrs : List (ℚ × Instr)) (tts : List ℚ) : Bool :=
  tts.any (fun T =>
    instrs.any (fun p =>
      decide (0 < T - p.1) && decide (T - p.1 < max (1 / clock_limit) wait_delay)))

/-- `n_triggers_prior` of `Output.offset_instructions_from_trigger` line
1586: the number of trigger times strictly before `t`. -/
def nPriorTriggers (tts : List ℚ) (t : ℚ) : ℕ :=
  (tts.filter (fun T => decide (T < t))).length

/-- `Output.offset_instructions_from_trigger` lines 1584-1597 on one
instruction time: the cumulative offset `trigger_delay * n_triggers_prior
+ trigger_times[0]` is rounded to 1e-10, subtracted from `t`, and the
difference is rounded to 1e-10 and quantised to the pseudoclock
resolution. -/
def offset_one_instruction_time (res d : ℚ) (tts : List ℚ) (t : ℚ) : ℚ :=
  quantise res (round10 (t - round10 (d * (nPriorTriggers tts t : ℚ) + tts.headI)))

/-- `Output.offset_instructions_from_trigger` applied to every key of
`self.instructions`. -/
def offset_instruction_times (res d : ℚ) (tts : List ℚ) (times : List ℚ) :
    List ℚ :=
  times.map (offset_one_instruction_time res d tts)

/-- `PseudoclockDevice.offset_instructions_from_trigger` lines 1313 and
1320 for a secondary pseudoclock: `stop_time` is compressed by the
initial trigger time plus one trigger delay per trigger, rounded to
1e-10, then quantised. -/
def offset_stop_time (res d : ℚ) (tts : List ℚ) (stop : ℚ) : ℚ :=
  quantise res (round10 (stop - tts.headI - d * (tts.length : ℚ)))

/-- Compiler state relevant to `wait`: the wait table as `(time, label,
timeout)` rows in insertion order, and the `trigger_times` list of every
pseudoclock device in `compiler.all_pseudoclocks`. -/
structure WaitState where
  wait_table : List (ℚ × String × ℚ)
  trigger_times : List (List ℚ)
deriving DecidableEq

/-- Errors raised by `wait`. -/
inductive WaitErr where
  | noName
  | timeClash
  | nameClash
deriving DecidableEq

/-- `trigger_all_pseudoclocks(t)` (lines 3420-3439) combined with
`PseudoclockDevice.trigger` (lines 1270-1289) at a non-initial time:
every pseudoclock appends `round(t, 10)` to its `trigger_times` (the
`wait_delay` parameter of `trigger` keeps its default 0). -/
def trigger_all_pseudoclocks_run (t : ℚ) (st : WaitState) : WaitState :=
  { st with trigger_times := st.trigger_times.map (fun l => l ++ [round10 t]) }

/-- `wait(label, t, timeout)` lines 3441-3462: an empty label fails,
then `trigger_all_pseudoclocks(t)` runs, then the duplicate-time and
duplicate-label checks, and only then is `wait_table[t] = (label,
timeout)` recorded.  Returns the final compiler state together with the
error raised, if any. -/
def wait_run (label : String) (t timeout : ℚ) (st : WaitState) :
    WaitState × Option WaitErr :=
  if label = "" then (st, some .noName)
  else
    let st2 := trigger_all_pseudoclocks_run t st
    if st2.wait_table.any (fun e => decide (e.1 = t)) then
      (st2, some .timeClash)
    else if st2.wait_table.any (fun e => decide (e.2.1 = label)) then
      (st2, some .nameClash)
    else
      ({ st2 with wait_table := st2.wait_table ++ [(t, label, timeout)] }, none)

/-- Errors raised by the ramp branch of `Output.add_instruction`. -/
inductive RampErr where
  | noRamping
  | rampOverlap
  | negativeDuration
  | badRate
deriving DecidableEq

/-- The overlap test of `Output.add_instruction` lines 1505-1510: some
existing `(start, end)` interval strictly interiorly contains `t` or
`endT`. -/
def ramp_overlaps (limits : List (ℚ × ℚ)) (t endT : ℚ) : Bool :=
  limits.any (fun p =>
    (decide (p.1 < t) && decide (t < p.2)) ||
    (decide (p.1 < endT) && decide (endT < p.2)))

/-- The ramp branch of `Output.add_instruction`, lines 1500-1516: fail
`NoRamping` when the clockline forbids ramping, fail `RampOverlap` on a
strictly interior overlap, then append `(t, endT)` to `ramp_limits`
(line 1511), and only afterwards fail `NegativeDuration` when
`t > endT` or `BadRate` when the clock rate is zero.  Returns the final
`ramp_limits` state together with the error raised, if any. -/
def add_ramp_instruction (ramping_allowed : Bool) (limits : List (ℚ × ℚ))
    (t endT rate : ℚ) : List (ℚ × ℚ) × Option RampErr :=
  if ramping_allowed = false then (limits, some .noRamping)
  else if ramp_overlaps limits t endT then (limits, some .rampOverlap)
  else
    let limits2 := limits ++ [(t, endT)]
    if endT < t then (limits2, some .negativeDuration)
    else if rate = 0 then (limits2, some .badRate)
    else (limits2, none)

/-- A device of the compiler inventory, as far as `stop` is concerned:
a `PseudoclockDevice` carrying its (possibly unset) `stop_time`, or any
other device. -/
inductive InvDevice where
  | pseudoclockDevice (stop_time : Option ℚ)
  | other
deriving DecidableEq

/-- The per-device mutation of `stop` lines 3580-3582. -/
def set_stop_time (t : ℚ) : InvDevice → InvDevice
  | .pseudoclockDevice _ => .pseudoclockDevice (some t)
  | .other => .other

/-- `stop(t)` lines 3577-3588 up to code generation: fails only when
`t == 0`; otherwise it sets `stop_time = t` on every `PseudoclockDevice`
of the inventory and proceeds to compile. -/
def stop_run (t : ℚ) (inventory : List InvDevice) : Option (List InvDevice) :=
  if t = 0 then none else some (inventory.map (set_stop_time t))

/-- The `(initial time, end time)` interval of the first ramp record in
time order, scanning the sorted instruction list as the loop of
`Output.get_change_times` does. -/
def first_ramp_interval : List (ℚ × Instr) → Option (ℚ × ℚ)
  | [] => none
  | (_, .ramp i e _) :: _ => some (i, e)
  | (_, .scalar _) :: rest => first_ramp_interval rest

/-- The instruction entries strictly after the first ramp record in the
sorted instruction list. -/
def after_first_ramp : List (ℚ × Instr) → List (ℚ × Instr)
  | [] => []
  | (_, .ramp _ _ _) :: rest => rest
  | (_, .scalar _) :: rest => after_first_ramp rest

/-- The collision loop of `Output.get_change_times` lines 1624-1631:
`current_dict_time` is set at the first ramp instruction in time order
and, because the branch that sets it requires it to still be `None`, is
never updated afterwards; any later instruction time strictly inside its
`(initial time, end time)` interval raises. -/
def collide_scan : Option (ℚ × ℚ) → List (ℚ × Instr) → Bool
  | _, [] => false
  | none, (_, .ramp i e _) :: rest => collide_scan (some (i, e)) rest
  | none, (_, .scalar _) :: rest => collide_scan none rest
  | some (i, e), (t, _) :: rest =>
      if i < t ∧ t < e then true else collide_scan (some (i, e)) rest

/-- Whether `Output.get_change_times` raises the scalar-inside-ramp
collision error on the sorted instruction list. -/
def get_change_times_raises (instrs : List (ℚ × Instr)) : Bool :=
  collide_scan none instrs

/-- `x` is an exact integer multiple of the resolution `res`. -/
def IsMultipleOf (res x : ℚ) : Prop := ∃ k : ℤ, x = k * res

/-- `x` is within `tol` of some integer multiple of the resolution
`res`. -/
def MultipleWithin (res tol x : ℚ) : Prop := ∃ k : ℤ, |x - k * res| ≤ tol

end Labscript

namespace Labscript

/-- C8 counterexample: at the concrete set input `{0}` with resolution 1,
`quantise_to_pseudoclock` errors (the `TypeError` of line 525 on the 0-d
object array numpy makes of a set) instead of returning the quantised
set the claim asserts. -/
theorem quantise_set_input_errors :
    quantise_to_pseudoclock 1 (.pyset {0}) = none ∧
    quantise_to_pseudoclock 1 (.pyset {0}) ≠
      some (.pyset (({0} : Finset ℚ).image (quantise 1))) :=
  ⟨rfl, by simp [quantise_to_pseudoclock]⟩

/-- C8 amended: `quantise_to_pseudoclock(times)` returns
`round(t/res)*res` for each element, preserving the container shape for
a bare number, a list and an array; a set input raises `TypeError` at
the division, so no quantised set is ever returned; and quantisation is
idempotent. -/
theorem quantise_shape_and_idem_amended :
    ∀ res : ℚ,
      (∀ t : ℚ, quantise_to_pseudoclock res (.flt t) =
        some (.flt ((rnd (t / res) : ℚ) * res))) ∧
      (∀ xs : List ℚ, quantise_to_pseudoclock res (.lst xs) =
        some (.lst (xs.map (fun t => (rnd (t / res) : ℚ) * res)))) ∧
      (∀ xs : List ℚ, quantise_to_pseudoclock res (.arr xs) =
        some (.arr (xs.map (fun t => (rnd (t / res) : ℚ) * res)))) ∧
      (∀ pt ptq : PyTimes, quantise_to_pseudoclock res pt = some ptq →
        shapeOf ptq = shapeOf pt) ∧
      (∀ s : Finset ℚ, quantise_to_pseudoclock res (.pyset s) = none) ∧
      (∀ t : ℚ, quantise res (quantise res t) = quantise res t) := by
  intro res
  refine ⟨fun t => rfl, fun xs => rfl, fun xs => rfl, ?_, fun s => rfl,
    fun t => quantise_idem res t⟩
  intro pt ptq h
  cases pt <;> simp [quantise_to_pseudoclock] at h <;> rw [← h] <;> rfl

/-- C8 witness: at resolution 2 the list `[3]` is quantised elementwise
into a list, the shape is preserved, and quantisation of 3 is
idempotent. -/
theorem quantise_shape_and_idem_amended_witness :
    quantise_to_pseudoclock 2 (.lst [3]) =
      some (.lst ([(3 : ℚ)].map (fun t => (rnd (t / 2) : ℚ) * 2))) ∧
    shapeOf (.lst ([(3 : ℚ)].map (fun t => (rnd (t / 2) : ℚ) * 2))) =
      shapeOf (.lst [(3 : ℚ)]) ∧
    quantise 2 (quantise 2 3) = quantise 2 3 := by
  have h := quantise_shape_and_idem_amended 2
  exact ⟨h.2.1 [3],
    h.2.2.2.1 (.lst [3]) (.lst ([(3 : ℚ)].map (fun t => (rnd (t / 2) : ℚ) * 2)))
      (h.2.1 [3]),
    h.2.2.2.2.2 3⟩

/-- C1: for every change-time interval with an active ramp, the clock
program segments follow the tie-break policy exactly: with `n_ticks = 1`,
one segment `{start = t, reps = 1, step = t_next - t}` enabling all
enabled clocklines; with `n_ticks = 2`, a period-step segment enabling all
enabled clocklines followed by the closing segment from the last tick
enabling only looping clocklines; with `n_ticks ≥ 3`, three segments:
the first period enabling all, `n_ticks - 2` middle periods enabling only
looping clocklines, and the closing segment from the last tick enabling
only looping clocklines. -/
theorem expand_change_times_tiebreak (res limit time tNext raw : ℚ)
    (enabled looping : List ℕ) :
    (nTicks time tNext (1 / quantisedPeriod res raw) limit = 1 →
      processInterval res limit time tNext raw enabled looping =
        [⟨time, 1, tNext - time, enabled⟩]) ∧
    (nTicks time tNext (1 / quantisedPeriod res raw) limit = 2 →
      processInterval res limit time tNext raw enabled looping =
        [⟨time, 1, quantisedPeriod res raw, enabled⟩,
         ⟨time + quantisedPeriod res raw, 1,
          tNext - (time + quantisedPeriod res raw), looping⟩]) ∧
    (∀ n : ℕ, nTicks time tNext (1 / quantisedPeriod res raw) limit = n → 3 ≤ n →
      processInterval res limit time tNext raw enabled looping =
        [⟨time, 1, quantisedPeriod res raw, enabled⟩,
         ⟨time + quantisedPeriod res raw, n - 2, quantisedPeriod res raw, looping⟩,
         ⟨time + ((n - 1 : ℕ) : ℚ) * quantisedPeriod res raw, 1,
          tNext - (time + ((n - 1 : ℕ) : ℚ) * quantisedPeriod res raw), looping⟩]) := by
  have hp : 1 / (1 / quantisedPeriod res raw) = quantisedPeriod res raw :=
    one_div_one_div _
  refine ⟨?_, ?_, ?_⟩
  · intro h
    unfold processInterval
    rw [hp, h]
    norm_num [emitRampSegments]
  · intro h
    unfold processInterval
    rw [hp, h]
    norm_num [emitRampSegments]
  · intro n h h3
    unfold processInterval
    rw [hp, h]
    have h1 : 1 < n := by omega
    have h2 : 2 < n := by omega
    have hne : n ≠ 1 := by omega
    simp [emitRampSegments, h1, h2, hne]

/-- C1 witness: with `res = limit = raw = 1`, `t = 0`, `t_next = 3`, the
tick count is 3 and the three-segment form is produced. -/
theorem expand_change_times_tiebreak_witness :
    nTicks 0 3 (1 / quantisedPeriod 1 1) 1 = 3 ∧
    processInterval 1 1 0 3 1 [0] [1] =
      [⟨0, 1, quantisedPeriod 1 1, [0]⟩,
       ⟨0 + quantisedPeriod 1 1, 3 - 2, quantisedPeriod 1 1, [1]⟩,
       ⟨0 + ((3 - 1 : ℕ) : ℚ) * quantisedPeriod 1 1, 1,
        3 - (0 + ((3 - 1 : ℕ) : ℚ) * quantisedPeriod 1 1), [1]⟩] := by
  have hn : nTicks 0 3 (1 / quantisedPeriod 1 1) 1 = 3 := by
    norm_num [nTicks, quantisedPeriod, quantise, rnd, ← intFloor_eq_ratFloor]
    rfl
  exact ⟨hn, (expand_change_times_tiebreak 1 1 0 3 1 [0] [1]).2.2 3 hn (by norm_num)⟩

/-- Membership in the accumulator survives the ramp-break fold. -/
theorem mem_insert_ramp_breaks_of_mem_acc (act : List ℚ) (x : ℚ) :
    ∀ (ramps : List (ℚ × ℚ)) (cts : List ℚ), x ∈ cts →
      x ∈ insert_ramp_breaks act ramps cts := by
  intro ramps
  induction ramps with
  | nil => intro cts h; exact h
  | cons r rs ih =>
    intro cts h
    exact ih _ (List.mem_append_left _ h)

/-- C2: for every ramp `(s, e)` on a clockline and every quantised change
time `t` of the union `all_change_times` with `s < t < e` strictly, `t`
is inserted into that clockline's change-time list. -/
theorem collect_change_times_ramp_break (res stop s e t : ℚ)
    (outputTimes tts cts : List ℚ) (ramps : List (ℚ × ℚ))
    (hr : (s, e) ∈ ramps)
    (ht : t ∈ all_change_times_quantised res outputTimes stop tts)
    (hs : s < t) (he : t < e) :
    t ∈ insert_ramp_breaks (all_change_times_quantised res outputTimes stop tts)
        ramps cts := by
  set act := all_change_times_quantised res outputTimes stop tts with hact
  clear_value act
  induction ramps generalizing cts with
  | nil => cases hr
  | cons r rs ih =>
    rcases List.mem_cons.mp hr with h | h
    · subst h
      refine mem_insert_ramp_breaks_of_mem_acc act t rs _ ?_
      refine List.mem_append_right _ ?_
      exact List.mem_filter.mpr ⟨ht, by simp [hs, he]⟩
    · exact ih _ h

/-- C2 witness: with resolution 1, output change times `[0, 5]`, stop time
10 and a ramp `(0, 10)`, the quantised external change time 5 is inserted
into the ramping clockline's list. -/
theorem collect_change_times_ramp_break_witness :
    (5 : ℚ) ∈ insert_ramp_breaks (all_change_times_quantised 1 [0, 5] 10 [])
        [(0, 10)] [] := by
  refine collect_change_times_ramp_break 1 10 0 10 5 [0, 5] [] [] [(0, 10)]
    (by simp) ?_ (by norm_num) (by norm_num)
  have h5 : quantise 1 5 = 5 := by
    norm_num [quantise, rnd, ← intFloor_eq_ratFloor]
  simp [all_change_times_quantised, h5]

/-- C3: the pre-trigger window check of `Output.do_checks` builds its
error but never raises it.  At a concrete failing input — a scalar
instruction at `t = 0.9999` s, a trigger at `T = 1` s, `clock_limit =
10⁶` Hz, `wait_delay = 10⁻³` s, `trigger_delay = 10⁻⁶` s — the
instruction falls inside the spec's window
`[T − max(1/clock_limit, wait_delay), T)`, yet the code's scan reports no
error. -/
theorem do_checks_pre_trigger_window_bug :
    do_checks_trigger_scan (1/10^6) (10^6) (1/10^3)
        [((9999 : ℚ)/10^4, .scalar 0)] [1] = none ∧
    spec_pre_trigger_window (10^6) (1/10^3)
        [((9999 : ℚ)/10^4, .scalar 0)] [1] = true := by
  constructor
  · have h1 : round10 (1 : ℚ) = 1 := by
      norm_num [round10, rnd, ← intFloor_eq_ratFloor]
    have h2 : round10 ((9999 : ℚ)/10^4) = (9999 : ℚ)/10^4 := by
      norm_num [round10, rnd, ← intFloor_eq_ratFloor]
    simp [do_checks_trigger_scan, trigger_check_one, h1, h2]
    norm_num
  · simp [spec_pre_trigger_window]
    norm_num

/-- C4 counterexample: with `clock_resolution = 1e-10`, `trigger_delay =
5e-11`, a single trigger at `t = 0` and an instruction at `t = 1e-10`,
the code maps the instruction to `1e-10`, while the claim's formula
`quantise(round(t - trigger_times[0] - n_prior*trigger_delay, 10))`
yields `0`: the code rounds the cumulative offset to 1e-10 *before*
subtracting it. -/
theorem offset_instruction_times_claim_false :
    offset_instruction_times (1/10^10) (5/10^11) [0] [1/10^10] ≠
      [quantise (1/10^10)
        (round10 ((1/10^10) - (0 : ℚ) -
          (5/10^11) * (nPriorTriggers [0] (1/10^10) : ℚ)))] := by
  have hn : nPriorTriggers [0] ((1 : ℚ)/10^10) = 1 := by
    norm_num [nPriorTriggers, List.filter]
  have hcode : offset_instruction_times (1/10^10) (5/10^11) [0] [1/10^10] =
      [1/10^10] := by
    unfold offset_instruction_times offset_one_instruction_time
    rw [List.map_singleton, hn]
    norm_num [round10, quantise, rnd, ← intFloor_eq_ratFloor]
  have hspec : quantise (1/10^10)
      (round10 ((1/10^10) - (0 : ℚ) -
        (5/10^11) * (nPriorTriggers [0] ((1 : ℚ)/10^10) : ℚ))) = 0 := by
    rw [hn]
    norm_num [round10, quantise, rnd, ← intFloor_eq_ratFloor]
  rw [hcode, hspec]
  norm_num

/-- C4 amended: whenever the cumulative offset `trigger_delay * n_prior +
trigger_times[0]` is unchanged by rounding to 1e-10 (in particular in
scenario S5), an instruction at time `t` is mapped to
`quantise(round(t - trigger_times[0] - n_prior * trigger_delay, 10))`,
and the secondary's stop time is compressed to
`quantise(round(stop - trigger_times[0] - trigger_delay * len(trigger_times), 10))`. -/
theorem offset_instructions_from_trigger_amended (res d t stop : ℚ)
    (tts times : List ℚ) (ht : t ∈ times)
    (hoff : round10 (d * (nPriorTriggers tts t : ℚ) + tts.headI) =
      d * (nPriorTriggers tts t : ℚ) + tts.headI) :
    quantise res (round10 (t - tts.headI - d * (nPriorTriggers tts t : ℚ))) ∈
      offset_instruction_times res d tts times ∧
    offset_stop_time res d tts stop =
      quantise res (round10 (stop - tts.headI - d * (tts.length : ℚ))) := by
  constructor
  · have heq : offset_one_instruction_time res d tts t =
        quantise res (round10 (t - tts.headI - d * (nPriorTriggers tts t : ℚ))) := by
      unfold offset_one_instruction_time
      rw [hoff]
      ring_nf
    rw [← heq]
    exact List.mem_map_of_mem _ ht
  · rfl

/-- C4 witness (scenario S5): one trigger at `t = 1`, `trigger_delay =
1e-6`, `clock_resolution = 1e-9`; the instruction at `t = 1.000001` maps
to exactly `0` and the stop time `2` maps to `0.999999`, i.e. it
decreases by `trigger_delay` beyond the initial trigger time. -/
theorem offset_instructions_from_trigger_amended_witness :
    (0 : ℚ) ∈ offset_instruction_times (1/10^9) (1/10^6) [1] [1 + 1/10^6] ∧
    offset_stop_time (1/10^9) (1/10^6) [1] 2 = 999999/1000000 := by
  have hn : nPriorTriggers [1] ((1 : ℚ) + 1/10^6) = 1 := by
    norm_num [nPriorTriggers, List.filter]
  have h := offset_instructions_from_trigger_amended (1/10^9) (1/10^6)
    (1 + 1/10^6) 2 [1] [1 + 1/10^6] (by simp)
    (by rw [hn]; norm_num [round10, rnd, ← intFloor_eq_ratFloor])
  constructor
  · have e1 : quantise (1/10^9)
        (round10 ((1 + 1/10^6) - ([1] : List ℚ).headI -
          (1/10^6) * (nPriorTriggers [1] ((1 : ℚ) + 1/10^6) : ℚ))) = 0 := by
      rw [hn]
      norm_num [round10, quantise, rnd, ← intFloor_eq_ratFloor]
    exact e1 ▸ h.1
  · rw [h.2]
    norm_num [round10, quantise, rnd, ← intFloor_eq_ratFloor]

/-- C5 counterexample: with a wait already recorded at `t = 2`, a second
`wait` at `t = 2` fails with the time clash, yet the pseudoclock trigger
time `round(2, 10) = 2` has already been appended: a failing wait does
assert the pseudoclock triggers. -/
theorem wait_failing_still_triggers :
    (wait_run "x" 2 5 ⟨[(2, "w", 5)], [[0]]⟩).2 = some .timeClash ∧
    (wait_run "x" 2 5 ⟨[(2, "w", 5)], [[0]]⟩).1.trigger_times = [[0, 2]] ∧
    ([[0, (2 : ℚ)]] : List (List ℚ)) ≠ [[0]] := by
  have h2 : round10 (2 : ℚ) = 2 := by
    norm_num [round10, rnd, ← intFloor_eq_ratFloor]
  refine ⟨?_, ?_, by simp⟩ <;>
    simp [wait_run, trigger_all_pseudoclocks_run, h2]

/-- C5 amended: `wait` fails `TimeClash` exactly when `t` is already in
the wait table and `NameClash` exactly when (the time is fresh and) the
label is already used; on success it records `wait_table[t] = (label,
timeout)` and a failing call leaves the wait table unchanged — but
`trigger_all_pseudoclocks(t)` runs *before* the duplicate checks, so
every call, failing or not, appends `round(t, 10)` to every
pseudoclock's trigger times. -/
theorem wait_run_characterisation (label : String) (t timeout : ℚ)
    (st : WaitState) (hl : label ≠ "") :
    (wait_run label t timeout st).1.trigger_times =
      st.trigger_times.map (fun l => l ++ [round10 t]) ∧
    ((wait_run label t timeout st).2 = some .timeClash ↔
      st.wait_table.any (fun e => decide (e.1 = t)) = true) ∧
    ((wait_run label t timeout st).2 = some .nameClash ↔
      st.wait_table.any (fun e => decide (e.1 = t)) = false ∧
      st.wait_table.any (fun e => decide (e.2.1 = label)) = true) ∧
    ((wait_run label t timeout st).2 = none →
      (wait_run label t timeout st).1.wait_table =
        st.wait_table ++ [(t, label, timeout)]) ∧
    ((wait_run label t timeout st).2 ≠ none →
      (wait_run label t timeout st).1.wait_table = st.wait_table) := by
  unfold wait_run trigger_all_pseudoclocks_run
  rw [if_neg hl]
  by_cases h1 : st.wait_table.any (fun e => decide (e.1 = t)) = true
  · simp [h1]
  · by_cases h2 : st.wait_table.any (fun e => decide (e.2.1 = label)) = true
    · simp [h1, h2]
    · simp [h1, h2]

/-- C5 witness: a fresh wait labelled `w` at `t = 2` on an empty table
records the row, raises nothing, and appends the trigger time. -/
theorem wait_run_characterisation_witness :
    (wait_run "w" 2 5 ⟨[], [[]]⟩).1.trigger_times =
      ([[]] : List (List ℚ)).map (fun l => l ++ [round10 2]) ∧
    ((wait_run "w" 2 5 ⟨[], [[]]⟩).2 = some .timeClash ↔
      ([] : List (ℚ × String × ℚ)).any (fun e => decide (e.1 = 2)) = true) ∧
    ((wait_run "w" 2 5 ⟨[], [[]]⟩).2 = some .nameClash ↔
      ([] : List (ℚ × String × ℚ)).any (fun e => decide (e.1 = 2)) = false ∧
      ([] : List (ℚ × String × ℚ)).any (fun e => decide (e.2.1 = "w")) = true) ∧
    ((wait_run "w" 2 5 ⟨[], [[]]⟩).2 = none →
      (wait_run "w" 2 5 ⟨[], [[]]⟩).1.wait_table =
        ([] : List (ℚ × String × ℚ)) ++ [(2, "w", 5)]) ∧
    ((wait_run "w" 2 5 ⟨[], [[]]⟩).2 ≠ none →
      (wait_run "w" 2 5 ⟨[], [[]]⟩).1.wait_table =
        ([] : List (ℚ × String × ℚ))) :=
  wait_run_characterisation "w" 2 5 ⟨[], [[]]⟩ (by decide)

/-- C6 counterexample: a ramp with `t = 2 > end_time = 1` fails
`NegativeDuration`, yet `(2, 1)` has already been appended to
`ramp_limits`: the append does not wait for these checks to pass. -/
theorem add_ramp_mutates_on_negative_duration :
    (add_ramp_instruction true [] 2 1 1).2 = some .negativeDuration ∧
    (add_ramp_instruction true [] 2 1 1).1 ≠ [] := by
  constructor <;> norm_num [add_ramp_instruction, ramp_overlaps]

/-- C6 amended: the ramp branch of `add_instruction` fails `NoRamping`
iff the clockline forbids ramping, `RampOverlap` iff some existing
interval strictly interiorly contains `t` or `end_time`,
`NegativeDuration` iff (past those checks) `t > end_time`, and `BadRate`
iff (past those) `clock_rate = 0`; `ramp_limits` is left unchanged by the
first two failures, but `(t, end_time)` is appended *before* the
`NegativeDuration` and `BadRate` checks, so those failures (and success)
leave it appended. -/
theorem add_ramp_instruction_checks (allowed : Bool) (limits : List (ℚ × ℚ))
    (t endT rate : ℚ) :
    ((add_ramp_instruction allowed limits t endT rate).2 = some .noRamping ↔
      allowed = false) ∧
    ((add_ramp_instruction allowed limits t endT rate).2 = some .rampOverlap ↔
      allowed = true ∧ ramp_overlaps limits t endT = true) ∧
    ((add_ramp_instruction allowed limits t endT rate).2 = some .negativeDuration ↔
      allowed = true ∧ ramp_overlaps limits t endT = false ∧ endT < t) ∧
    ((add_ramp_instruction allowed limits t endT rate).2 = some .badRate ↔
      allowed = true ∧ ramp_overlaps limits t endT = false ∧ ¬ endT < t ∧
        rate = 0) ∧
    (((add_ramp_instruction allowed limits t endT rate).2 = some .noRamping ∨
      (add_ramp_instruction allowed limits t endT rate).2 = some .rampOverlap) →
      (add_ramp_instruction allowed limits t endT rate).1 = limits) ∧
    (((add_ramp_instruction allowed limits t endT rate).2 =
        some .negativeDuration ∨
      (add_ramp_instruction allowed limits t endT rate).2 = some .badRate ∨
      (add_ramp_instruction allowed limits t endT rate).2 = none) →
      (add_ramp_instruction allowed limits t endT rate).1 =
        limits ++ [(t, endT)]) := by
  unfold add_ramp_instruction
  cases allowed with
  | false => simp
  | true =>
    by_cases h1 : ramp_overlaps limits t endT = true
    · simp [h1]
    · by_cases h2 : endT < t
      · simp [h1, h2]
      · by_cases h3 : rate = 0
        · simp [h1, h2, h3]
        · simp [h1, h2, h3]

/-- C6 witness: a zero clock rate fails `BadRate`, and the interval has
nevertheless been appended to `ramp_limits`. -/
theorem add_ramp_instruction_checks_witness :
    (add_ramp_instruction true [] 0 1 0).2 = some .badRate ∧
    (add_ramp_instruction true [] 0 1 0).1 = ([] : List (ℚ × ℚ)) ++ [(0, 1)] := by
  have h := add_ramp_instruction_checks true [] 0 1 0
  have hb : (add_ramp_instruction true [] 0 1 0).2 = some .badRate :=
    h.2.2.2.1.mpr ⟨rfl, rfl, by norm_num, rfl⟩
  exact ⟨hb, h.2.2.2.2.2 (Or.inr (Or.inl hb))⟩

/-- C9: `stop(t)` rejects only an exact zero stop time; every `t < 0`
passes the guard, and `stop_time = t` is set on every
`PseudoclockDevice` of the inventory before compilation. -/
theorem stop_accepts_negative (t : ℚ) (inventory : List InvDevice)
    (ht : t < 0) :
    stop_run t inventory = some (inventory.map (set_stop_time t)) ∧
    ∀ d ∈ inventory.map (set_stop_time t), ∀ s : Option ℚ,
      d = .pseudoclockDevice s → s = some t := by
  constructor
  · rw [stop_run, if_neg (ne_of_lt ht)]
  · intro d hd s hds
    rcases List.mem_map.mp hd with ⟨d0, _, rfl⟩
    cases d0 with
    | pseudoclockDevice s0 =>
      injection hds with h
      exact h.symm
    | other => simp [set_stop_time] at hds

/-- C9 witness: `stop(-1)` on an inventory with one pseudoclock device
and one other device passes the guard and sets the stop time. -/
theorem stop_accepts_negative_witness :
    stop_run (-1) [.pseudoclockDevice none, .other] =
      some (([.pseudoclockDevice none, .other] : List InvDevice).map
        (set_stop_time (-1))) ∧
    ∀ d ∈ ([.pseudoclockDevice none, .other] : List InvDevice).map
        (set_stop_time (-1)), ∀ s : Option ℚ,
      d = .pseudoclockDevice s → s = some (-1) :=
  stop_accepts_negative (-1) [.pseudoclockDevice none, .other] (by norm_num)

/-- Once `current_dict_time` is set to `(i, e)`, the scan raises exactly
when some remaining instruction time is strictly inside `(i, e)`. -/
theorem collide_scan_some_iff (i e : ℚ) :
    ∀ l : List (ℚ × Instr),
      collide_scan (some (i, e)) l = true ↔ ∃ p ∈ l, i < p.1 ∧ p.1 < e := by
  intro l
  induction l with
  | nil => simp [collide_scan]
  | cons hd rest ih =>
    obtain ⟨t, ins⟩ := hd
    by_cases h : i < t ∧ t < e
    · simp [collide_scan, h]
    · simp only [collide_scan, if_neg h, ih, List.mem_cons]
      constructor
      · rintro ⟨p, hp, hlt⟩
        exact ⟨p, Or.inr hp, hlt⟩
      · rintro ⟨p, hp | hp, hlt⟩
        · cases hp
          exact absurd hlt h
        · exact ⟨p, hp, hlt⟩

/-- C10: the scalar-inside-ramp check of `Output.get_change_times` tracks
only the earliest ramp: it raises exactly when some later instruction
time lies strictly inside the first ramp's `(initial time, end time)`
interval; an instruction strictly inside any other ramp but not the
first raises nothing. -/
theorem get_change_times_first_ramp_only (instrs : List (ℚ × Instr)) :
    get_change_times_raises instrs = true ↔
      ∃ i e, first_ramp_interval instrs = some (i, e) ∧
        ∃ p ∈ after_first_ramp instrs, i < p.1 ∧ p.1 < e := by
  unfold get_change_times_raises
  induction instrs with
  | nil => simp [collide_scan, first_ramp_interval, after_first_ramp]
  | cons hd rest ih =>
    obtain ⟨t, ins⟩ := hd
    cases ins with
    | scalar v =>
      simpa [collide_scan, first_ramp_interval, after_first_ramp] using ih
    | ramp i e r =>
      simp only [collide_scan, first_ramp_interval, after_first_ramp,
        collide_scan_some_iff, Option.some.injEq, Prod.mk.injEq]
      constructor
      · intro h
        exact ⟨i, e, ⟨rfl, rfl⟩, h⟩
      · rintro ⟨i1, e1, ⟨rfl, rfl⟩, h⟩
        exact h

/-- C10 witness: a scalar at `t = 5` inside the first ramp `(0, 10)`
raises, while a scalar at `t = 5` inside only the second ramp `(2, 10)`
(but outside the first ramp `(0, 1)`) raises nothing. -/
theorem get_change_times_first_ramp_only_witness :
    get_change_times_raises [(0, .ramp 0 10 1), (5, .scalar 3)] = true ∧
    get_change_times_raises
      [(0, .ramp 0 1 1), (2, .ramp 2 10 1), (5, .scalar 3)] = false := by
  constructor
  · exact (get_change_times_first_ramp_only _).mpr
      ⟨0, 10, rfl, (5, .scalar 3), by exact List.mem_cons_self _ _,
        by norm_num, by norm_num⟩
  · have h := get_change_times_first_ramp_only
      [(0, .ramp 0 1 1), (2, .ramp 2 10 1), (5, .scalar 3)]
    rw [Bool.eq_false_iff]
    intro hc
    rcases h.mp hc with ⟨i, e, hfirst, p, hp, h1, h2⟩
    rw [show first_ramp_interval
        [(0, .ramp 0 1 1), (2, .ramp 2 10 1), (5, .scalar 3)] =
        some ((0 : ℚ), (1 : ℚ)) from rfl] at hfirst
    injection hfirst with hpair
    obtain ⟨rfl, rfl⟩ := Prod.mk.injEq .. ▸ Prod.ext_iff.mp hpair.symm
    simp only [after_first_ramp, List.mem_cons] at hp
    rcases hp with hp | hp | hp
    · rw [hp] at h1 h2
      norm_num at h2
    · rw [hp] at h1 h2
      norm_num at h2
    · simp at hp

/-- Multiples of the resolution are closed under addition. -/
theorem IsMultipleOf.add {res x y : ℚ} (hx : IsMultipleOf res x)
    (hy : IsMultipleOf res y) : IsMultipleOf res (x + y) := by
  obtain ⟨a, rfl⟩ := hx
  obtain ⟨b, rfl⟩ := hy
  exact ⟨a + b, by push_cast; ring⟩

/-- Multiples of the resolution are closed under subtraction. -/
theorem IsMultipleOf.sub {res x y : ℚ} (hx : IsMultipleOf res x)
    (hy : IsMultipleOf res y) : IsMultipleOf res (x - y) := by
  obtain ⟨a, rfl⟩ := hx
  obtain ⟨b, rfl⟩ := hy
  exact ⟨a - b, by push_cast; ring⟩

/-- Multiples of the resolution are closed under scaling by a natural
number. -/
theorem IsMultipleOf.natMul {res x : ℚ} (m : ℕ) (hx : IsMultipleOf res x) :
    IsMultipleOf res ((m : ℚ) * x) := by
  obtain ⟨a, rfl⟩ := hx
  exact ⟨m * a, by push_cast; ring⟩

/-- Quantised values are exact multiples of the resolution. -/
theorem quantise_isMultiple (res x : ℚ) : IsMultipleOf res (quantise res x) :=
  ⟨rnd (x / res), rfl⟩

/-- C7 amended: with the interval endpoints quantised, every segment
start, every segment step and every tick produced by the ramp expansion —
the quantised period, the evenly spaced ticks, the closing step
`t_next - last_tick`, and the no-ramp segment — is an exact integer
multiple of the pseudoclock's `clock_resolution` (so in particular within
1e-12 s of one); the terminal `10/clock_limit` step is excluded. -/
theorem expand_change_times_resolution (res time tNext raw : ℚ)
    (n : ℕ) (enabled looping : List ℕ)
    (htime : IsMultipleOf res time) (htNext : IsMultipleOf res tNext) :
    (∀ sg ∈ emitRampSegments time tNext (quantisedPeriod res raw) n
        enabled looping,
      IsMultipleOf res sg.start ∧ IsMultipleOf res sg.step) ∧
    (∀ tk ∈ rampTicks time (quantisedPeriod res raw) n, IsMultipleOf res tk) ∧
    (IsMultipleOf res (simpleSegment time tNext enabled).start ∧
      IsMultipleOf res (simpleSegment time tNext enabled).step) := by
  have hperiod : IsMultipleOf res (quantisedPeriod res raw) :=
    quantise_isMultiple res (1 / raw)
  have hlast : IsMultipleOf res
      (time + ((n - 1 : ℕ) : ℚ) * quantisedPeriod res raw) :=
    htime.add (hperiod.natMul (n - 1))
  refine ⟨?_, ?_, htime, htNext.sub htime⟩
  · intro sg hsg
    unfold emitRampSegments at hsg
    rcases List.mem_append.mp hsg with hmem | hmem
    · split at hmem
      · split at hmem
        · rcases List.mem_cons.mp hmem with rfl | hmem
          · exact ⟨htime, hperiod⟩
          · rcases List.mem_cons.mp hmem with rfl | hmem
            · exact ⟨htime.add hperiod, hperiod⟩
            · cases hmem
        · rcases List.mem_cons.mp hmem with rfl | hmem
          · exact ⟨htime, hperiod⟩
          · cases hmem
      · cases hmem
    · rcases List.mem_cons.mp hmem with rfl | hmem
      · exact ⟨hlast, htNext.sub hlast⟩
      · cases hmem
  · intro tk htk
    unfold rampTicks at htk
    obtain ⟨k, hk, hEq⟩ := List.mem_map.mp htk
    rw [← hEq]
    exact htime.add (hperiod.natMul k)

/-- C7 witness: with `res = 1`, interval `[0, 3]` and raw rate 1, the
hypotheses hold and the resolution invariant follows for the emitted
segments and ticks. -/
theorem expand_change_times_resolution_witness :
    (∀ sg ∈ emitRampSegments 0 3 (quantisedPeriod 1 1) 3 [0] [1],
      IsMultipleOf 1 sg.start ∧ IsMultipleOf 1 sg.step) ∧
    (∀ tk ∈ rampTicks 0 (quantisedPeriod 1 1) 3, IsMultipleOf 1 tk) ∧
    (IsMultipleOf 1 (simpleSegment 0 3 [0]).start ∧
      IsMultipleOf 1 (simpleSegment 0 3 [0]).step) :=
  expand_change_times_resolution 1 0 3 1 3 [0] [1]
    ⟨0, by norm_num⟩ ⟨3, by norm_num⟩

/-- C7 counterexample: for `clock_limit = 3` Hz and `clock_resolution =
1e-7` s, the terminal segment's step `10/clock_limit = 10/3` s is not
within 1e-12 s of any integer multiple of the resolution. -/
theorem terminal_step_not_multiple :
    ¬ MultipleWithin (1/10^7) (1/10^12)
        (terminalSegment 0 3 ([] : List ℕ)).step := by
  rintro ⟨k, hk⟩
  have hstep : (terminalSegment (0 : ℚ) 3 ([] : List ℕ)).step = 10/3 := by
    norm_num [terminalSegment]
  rw [hstep] at hk
  have hm : ((10^8 - 3*k : ℤ) : ℚ) = 3 * 10^7 * (10/3 - k * (1/10^7)) := by
    push_cast
    ring
  have habs : |((10^8 - 3*k : ℤ) : ℚ)| ≤ 3 * 10^7 * (1/10^12) := by
    rw [hm, abs_mul, abs_of_pos (by norm_num : (0:ℚ) < 3 * 10^7)]
    exact mul_le_mul_of_nonneg_left hk (by norm_num)
  have hlt : |((10^8 - 3*k : ℤ) : ℚ)| < 1 := lt_of_le_of_lt habs (by norm_num)
  have hz : (10^8 - 3*k : ℤ) = 0 := by
    have habs1 : |(10^8 - 3*k : ℤ)| < 1 := by exact_mod_cast hlt
    exact Int.abs_lt_one_iff.mp habs1
  omega

end Labscript
